import Mathlib

/-!
# Verification of the git-pkgs/managers command-translation engine

Shallow embedding of the Go package `managers` (command translator,
output extractor, generic manager) and proofs about it.

Go maps (`map[string]T`) are embedded as association lists
`List (String × T)`; `m[k]` is `List.lookup k`, and `for k, v := range m`
is iteration in list order.  Go's map iteration order is unspecified, so
properties that must hold for the real program are proved for *every*
association list (every iteration order), while order-dependence is
exhibited by comparing two lists that denote the same map.

Go's `(value, error)` returns are embedded as `Except GoErr` when the two
are mutually exclusive, and as a pair of options where the code returns
both (`GenericManager.Path`).  External library calls (`encoding/json`,
`regexp`, `path/filepath`) are parameters gathered in `GoLibs`.
-/

namespace Managers

/-- Dynamic flag values (`map[string]any` in `CommandInput.Flags`).
`vother` stands for any non-nil value that is neither `bool` nor `string`
(the code only distinguishes those three shapes, via `isTruthy` and the
`val.(string)` assertion in `expandFlag`). -/
inductive GoVal : Type where
  | vnil : GoVal
  | vbool : Bool → GoVal
  | vstr : String → GoVal
  | vother : GoVal
deriving DecidableEq, Repr

/-- Go error values produced by the translator / extractor.
`fmt.Errorf` / `errors.New` sites are embedded as `.msg` with the
formatted text; the typed errors `ErrMissingArgument` and
`ErrInvalidPackageName` (part_000) get their own constructors. -/
inductive GoErr : Type where
  | msg : String → GoErr
  | missingArgument : String → GoErr
  | invalidPackageName : String → String → GoErr
deriving DecidableEq, Repr

/-- `definitions.Arg` (schema.go).  Field names follow the Go struct;
`Position` is carried but — like in the source — never read by the
translator. -/
structure Arg where
  position : Nat := 0
  required : Bool := false
  validate : String := ""
  flag : String := ""
  suffix : String := ""
  fixedSuffix : String := ""
  extractionOnly : Bool := false
deriving DecidableEq, Repr

/-- `definitions.FlagValue` (schema.go). -/
structure FlagValue where
  literal : String := ""
  field : String := ""
  join : String := ""
deriving DecidableEq, Repr

/-- `definitions.Flag` (schema.go): a flag expansion rule. -/
structure FlagRule where
  values : List FlagValue := []
deriving DecidableEq, Repr

/-- `definitions.Extract` (schema.go).  The Go field `Prefix` is named
`linePrefix` here. -/
structure Extract where
  type : String := ""
  field : String := ""
  linePrefix : String := ""
  pattern : String := ""
  arrayField : String := ""
  matchField : String := ""
  extractField : String := ""
  stripFilename : Bool := false
deriving DecidableEq, Repr

/-- `definitions.Command` (schema.go).  `Then []Command` makes the type
recursive, hence an inductive with projection functions.  The Go maps
`BaseOverrides`, `Args`, `Flags` are association lists (see module
comment); `ExitCodes` is carried for completeness. -/
inductive Command : Type where
  | mk : (base : List String) → (baseOverrides : List (String × List String)) →
      (args : List (String × Arg)) → (flags : List (String × FlagRule)) →
      (defaultFlags : List String) → (exitCodes : List (Int × String)) →
      (thenCmds : List Command) → (extract : Option Extract) → Command

def Command.base : Command → List String
  | .mk b _ _ _ _ _ _ _ => b

def Command.baseOverrides : Command → List (String × List String)
  | .mk _ o _ _ _ _ _ _ => o

def Command.args : Command → List (String × Arg)
  | .mk _ _ a _ _ _ _ _ => a

def Command.flags : Command → List (String × FlagRule)
  | .mk _ _ _ f _ _ _ _ => f

def Command.defaultFlags : Command → List String
  | .mk _ _ _ _ d _ _ _ => d

def Command.exitCodes : Command → List (Int × String)
  | .mk _ _ _ _ _ e _ _ => e

def Command.thenCmds : Command → List Command
  | .mk _ _ _ _ _ _ t _ => t

def Command.extract : Command → Option Extract
  | .mk _ _ _ _ _ _ _ x => x

/-- `definitions.Validator` (schema.go). -/
structure Validator where
  pattern : String := ""
  maxLength : Int := 0
deriving DecidableEq, Repr

/-- `definitions.Definition` (schema.go), restricted to the fields the
translator and extractor read (`Name`, `Binary`, `Commands`); the
detection / version metadata is owned by the external Detector. -/
structure Definition where
  name : String
  binary : String := ""
  commands : List (String × Command) := []

/-- `CommandInput` (part_001). -/
structure CommandInput where
  args : List (String × String) := []
  flags : List (String × GoVal) := []
  extra : List String := []

/-- `Translator` (part_001): registries filled by `Register` /
`RegisterValidator`, keyed by name. -/
structure Translator where
  definitions : List (String × Definition) := []
  validators : List (String × Validator) := []

instance {ε α : Type} [DecidableEq ε] [DecidableEq α] : DecidableEq (Except ε α) := fun x y =>
  match x, y with
  | .ok a, .ok b =>
      if h : a = b then .isTrue (by rw [h]) else .isFalse (fun hh => h (Except.ok.inj hh))
  | .error a, .error b =>
      if h : a = b then .isTrue (by rw [h]) else .isFalse (fun hh => h (Except.error.inj hh))
  | .ok _, .error _ => .isFalse (fun hh => Except.noConfusion hh)
  | .error _, .ok _ => .isFalse (fun hh => Except.noConfusion hh)

/-- Remove every entry with the given key from an association list —
deleting a key from the Go map the list denotes. -/
def eraseKeyAll {α : Type} (x : String) : List (String × α) → List (String × α)
  | [] => []
  | a :: rest => if a.1 = x then eraseKeyAll x rest else a :: eraseKeyAll x rest

/-- `isTruthy` (part_001:223-235). -/
def isTruthy : GoVal → Bool
  | .vnil => false
  | .vbool b => b
  | .vstr s => s ≠ ""
  | .vother => true

/-- `Translator.validate` (part_001:207-221).  Looks up the named
validator; an unregistered name passes.  Only `MaxLength` is checked —
the `Pattern` field of `Validator` is never read here.  Go's
`len(value)` is a byte length, hence `String.utf8ByteSize`. -/
def tvalidate (validators : List (String × Validator)) (validatorName value : String) :
    Except GoErr Unit :=
  match List.lookup validatorName validators with
  | none => .ok ()
  | some v =>
      if 0 < v.maxLength ∧ v.maxLength < (value.utf8ByteSize : Int) then
        .error (.invalidPackageName value
          ("exceeds maximum length of " ++ toString v.maxLength))
      else
        .ok ()

/-- Tokens one arg entry contributes inside the args loop of
`buildSingleCommand` (part_001:125-137): flag-style, fixed suffix,
the deferred version-suffix case, or plain positional. -/
def argTokens (name : String) (ad : Arg) (val : String) : List String :=
  if ad.flag ≠ "" then [ad.flag, val]
  else if ad.fixedSuffix ≠ "" then [val ++ ad.fixedSuffix]
  else if ad.suffix ≠ "" ∧ name = "version" then []
  else [val]

/-- The args loop of `buildSingleCommand` (part_001:110-138): walks
`cmd.Args` in iteration order, returning the appended tokens or the
first error (missing required argument, or a validation failure). -/
def renderArgs (validators : List (String × Validator))
    (inputArgs : List (String × String)) :
    List (String × Arg) → Except GoErr (List String)
  | [] => .ok []
  | (name, ad) :: rest =>
      match List.lookup name inputArgs with
      | none =>
          if ad.required then .error (.missingArgument name)
          else renderArgs validators inputArgs rest
      | some val =>
          match (if ad.validate ≠ "" then tvalidate validators ad.validate val
                 else .ok ()) with
          | .error e => .error e
          | .ok _ =>
              match renderArgs validators inputArgs rest with
              | .error e => .error e
              | .ok toks => .ok (argTokens name ad val ++ toks)

/-- The base-override scan of `buildSingleCommand` (part_001:92-100):
first override (in iteration order) whose flag is present and truthy
wins; returns the triggering flag name and the replacement base. -/
def pickOverride (flags : List (String × GoVal)) :
    List (String × List String) → Option (String × List String)
  | [] => none
  | (flagName, override) :: rest =>
      match List.lookup flagName flags with
      | some v => if isTruthy v then some (flagName, override) else pickOverride flags rest
      | none => pickOverride flags rest

/-- `Translator.expandFlag` (part_001:184-205). -/
def expandFlag (fd : FlagRule) (flags : List (String × GoVal)) : List String :=
  (fd.values.map (fun v =>
    if v.literal ≠ "" ∧ v.field ≠ "" ∧ v.join ≠ "" then
      match List.lookup v.field flags with
      | some (.vstr s) => if s ≠ "" then [v.literal ++ v.join ++ s] else []
      | _ => []
    else if v.literal ≠ "" then [v.literal]
    else if v.field ≠ "" then
      match List.lookup v.field flags with
      | some (.vstr s) => if s ≠ "" then [s] else []
      | _ => []
    else [])).flatten

/-- One iteration of the user-flag loop of `buildSingleCommand`
(part_001:159-176): skip non-truthy values
(`val == false || val == "" || val == nil`), the override trigger, and
names without an expansion rule; otherwise expand. -/
def flagEntryTokens (used : String) (cmdFlags : List (String × FlagRule))
    (flags : List (String × GoVal)) (p : String × GoVal) : List String :=
  if p.2 = .vbool false ∨ p.2 = .vstr "" ∨ p.2 = .vnil then []
  else if p.1 = used then []
  else
    match List.lookup p.1 cmdFlags with
    | none => []
    | some fd => expandFlag fd flags

/-- The user-flag loop of `buildSingleCommand` (part_001:159-176): walk
`input.Flags` in iteration order, appending each entry's expansion. -/
def flagsPass (used : String) (cmdFlags : List (String × FlagRule))
    (flags : List (String × GoVal)) : List String :=
  (flags.map (flagEntryTokens used cmdFlags flags)).flatten

/-- Rewrite the first token equal to `p` — the version-suffix search loop
of `buildSingleCommand` (part_001:143-149). -/
def replaceFirst (p : String) (f : String → String) : List String → List String
  | [] => []
  | a :: rest => if a = p then f a :: rest else a :: replaceFirst p f rest

/-- The version-suffix pass of `buildSingleCommand` (part_001:140-151):
if `cmd.Args` declares "version" with a non-empty suffix and the input
supplies a version, the first token equal to the package value (empty
string when no package was supplied) becomes `token + suffix + version`. -/
def versionRewrite (cmdArgs : List (String × Arg)) (inputArgs : List (String × String))
    (packageVal : String) (toks : List String) : List String :=
  match List.lookup "version" cmdArgs with
  | some vd =>
      if vd.suffix ≠ "" then
        match List.lookup "version" inputArgs with
        | some ver => replaceFirst packageVal (fun a => a ++ vd.suffix ++ ver) toks
        | none => toks
      else toks
  | none => toks

/-- `Translator.buildSingleCommand` (part_001:88-182): binary, then base
(possibly replaced by an override), then the args pass, the
version-suffix rewrite, the default flags, the user-flag expansion, and
finally the raw `Extra` tokens. -/
def buildSingleCommand (validators : List (String × Validator)) (binary : String)
    (cmd : Command) (input : CommandInput) : Except GoErr (List String) :=
  let pick := pickOverride input.flags cmd.baseOverrides
  let base := (pick.map (·.2)).getD cmd.base
  let baseOverrideUsed := (pick.map (·.1)).getD ""
  let packageVal := (List.lookup "package" input.args).getD ""
  match renderArgs validators input.args cmd.args with
  | .error e => .error e
  | .ok argToks =>
      let args1 := binary :: (base ++ argToks)
      let args2 := versionRewrite cmd.args input.args packageVal args1
      let args3 := args2 ++ cmd.defaultFlags
      let args4 := args3 ++ flagsPass baseOverrideUsed cmd.flags input.flags
      .ok (args4 ++ input.extra)

/-- The `Then` loop of `buildCommandChain` (part_001:77-83): build each
chained Command from the same input, aborting on the first failure. -/
def buildThenCmds (validators : List (String × Validator)) (binary : String)
    (input : CommandInput) : List Command → Except GoErr (List (List String))
  | [] => .ok []
  | next :: rest =>
      match buildSingleCommand validators binary next input with
      | .error e => .error e
      | .ok nextCmd =>
          match buildThenCmds validators binary input rest with
          | .error e => .error e
          | .ok out => .ok (nextCmd :: out)

/-- `Translator.buildCommandChain` (part_001:69-86): the first command,
then one independently built command per `Then` entry; any failure
aborts the whole chain. -/
def buildCommandChain (validators : List (String × Validator)) (binary : String)
    (cmd : Command) (input : CommandInput) : Except GoErr (List (List String)) :=
  match buildSingleCommand validators binary cmd input with
  | .error e => .error e
  | .ok first =>
      match buildThenCmds validators binary input cmd.thenCmds with
      | .error e => .error e
      | .ok rest => .ok (first :: rest)

/-- `Translator.BuildCommand` (part_001:40-52). -/
def BuildCommand (t : Translator) (managerName operation : String)
    (input : CommandInput) : Except GoErr (List String) :=
  match List.lookup managerName t.definitions with
  | none => .error (.msg ("unknown manager: " ++ managerName))
  | some d =>
      match List.lookup operation d.commands with
      | none => .error (.msg "operation not supported by this manager")
      | some cmd => buildSingleCommand t.validators d.binary cmd input

/-- `Translator.BuildCommands` (part_001:55-67). -/
def BuildCommands (t : Translator) (managerName operation : String)
    (input : CommandInput) : Except GoErr (List (List String)) :=
  match List.lookup managerName t.definitions with
  | none => .error (.msg ("unknown manager: " ++ managerName))
  | some d =>
      match List.lookup operation d.commands with
      | none => .error (.msg "operation not supported by this manager")
      | some cmd => buildCommandChain t.validators d.binary cmd input

/-! ## Output extractor (extractor.go) -/

/-- A decoded JSON value as Go's `json.Unmarshal` into `any` yields it.
The extractor only ever asserts `.(string)`, `.([]any)` and
`.(map[string]any)`, so all other scalars are collapsed into `jother`. -/
inductive JVal : Type where
  | jstr : String → JVal
  | jarr : List JVal → JVal
  | jobj : List (String × JVal) → JVal
  | jother : JVal

/-- External Go libraries used by the extractor, supplied as parameters:
`jsonParse` is `json.Unmarshal` into `map[string]any` (`none` = parse
error), `regexFind` is `regexp.Compile` + `FindStringSubmatch`
(`.error` = compile failure, otherwise the submatch list), and `dir` is
`path/filepath.Dir`. -/
structure GoLibs where
  jsonParse : String → Option (List (String × JVal))
  regexFind : (pattern output : String) → Except Unit (List String)
  dir : String → String

/-- Go's `%q` verb in the extractor's error messages, for strings
without characters that `%q` would escape. -/
def goQuote (s : String) : String := "\"" ++ s ++ "\""

/-- `strings.TrimSpace`: strip leading and trailing whitespace.
Implemented on the character list so that it evaluates by kernel
reduction; `Char.isWhitespace` covers the whitespace the definitions'
outputs contain. -/
def goTrimSpace (s : String) : String :=
  ⟨((s.data.dropWhile Char.isWhitespace).reverse.dropWhile Char.isWhitespace).reverse⟩

/-- `strings.Split(s, sep)` for a one-character separator, on the
character list (the extractor only splits on `"\n"`). -/
def goSplitChar (c : Char) : List Char → List (List Char)
  | [] => [[]]
  | a :: rest =>
      let r := goSplitChar c rest
      if a = c then [] :: r
      else
        match r with
        | [] => [[a]]
        | h :: t => (a :: h) :: t

/-- `extractJSON` (extractor.go:47-68). -/
def extractJSON (libs : GoLibs) (output field : String) : Except GoErr String :=
  if field = "" then .error (.msg "json extraction requires field name")
  else
    match libs.jsonParse output with
    | none => .error (.msg "failed to parse JSON")
    | some data =>
        match List.lookup field data with
        | none => .error (.msg ("field " ++ goQuote field ++ " not found in JSON"))
        | some (.jstr s) => .ok s
        | some _ => .error (.msg ("field " ++ goQuote field ++ " is not a string"))

/-- `extractLinePrefix` (extractor.go:70-83): split on newlines, return
the first line starting with the prefix, with the prefix removed
(`strings.TrimPrefix`, here: dropping the prefix's characters) and the
remainder trimmed. -/
def extractLinePrefix (output pfx : String) : Except GoErr String :=
  if pfx = "" then .error (.msg "line_prefix extraction requires prefix")
  else
    match (goSplitChar '\n' output.data).find? (fun line => pfx.data.isPrefixOf line) with
    | some line => .ok (goTrimSpace ⟨line.drop pfx.data.length⟩)
    | none => .error (.msg ("no line found with prefix " ++ goQuote pfx))

/-- `extractRegex` (extractor.go:85-101). -/
def extractRegex (libs : GoLibs) (output pattern : String) : Except GoErr String :=
  if pattern = "" then .error (.msg "regex extraction requires pattern")
  else
    match libs.regexFind pattern output with
    | .error _ => .error (.msg "invalid regex pattern")
    | .ok ms =>
        if h : 2 ≤ ms.length then .ok (goTrimSpace (ms.get ⟨1, by omega⟩))
        else .error (.msg "pattern did not match or no capture group found")

/-- `extractTemplate` (extractor.go:103-111). -/
def extractTemplate (pattern pkg : String) : Except GoErr String :=
  if pattern = "" then .error (.msg "template extraction requires pattern")
  else if pkg = "" then .error (.msg "template extraction requires package name")
  else .ok (pattern.replace "\x7bpackage\x7d" pkg)

/-- The element scan of `extractJSONArray` (extractor.go:128-145): first
object whose match field equals `pkg`; non-objects are skipped, a
matched element with a non-string extract field is an error. -/
def scanArray (matchField extractField pkg : String) : List JVal → Except GoErr String
  | [] => .error (.msg ("no element found with " ++ matchField ++ "=" ++ goQuote pkg))
  | item :: rest =>
      match item with
      | .jobj obj =>
          match List.lookup matchField obj with
          | some (.jstr name) =>
              if name = pkg then
                match List.lookup extractField obj with
                | some (.jstr value) => .ok (goTrimSpace value)
                | _ => .error (.msg ("field " ++ goQuote extractField ++
                    " is not a string in matched element"))
              else scanArray matchField extractField pkg rest
          | _ => scanArray matchField extractField pkg rest
      | _ => scanArray matchField extractField pkg rest

/-- `extractJSONArray` (extractor.go:113-148). -/
def extractJSONArray (libs : GoLibs) (output arrayField matchField extractField pkg : String) :
    Except GoErr String :=
  if arrayField = "" ∨ matchField = "" ∨ extractField = "" then
    .error (.msg "json_array extraction requires array_field, match_field, and extract_field")
  else
    match libs.jsonParse output with
    | none => .error (.msg "failed to parse JSON")
    | some data =>
        match List.lookup arrayField data with
        | some (.jarr arr) => scanArray matchField extractField pkg arr
        | _ => .error (.msg ("field " ++ goQuote arrayField ++ " is not an array"))

/-- `ExtractPath` (extractor.go:13-45): nil rule, empty type or "raw"
are raw passthrough (trim); otherwise dispatch on the type, failing on
an unknown one; an optional final `filepath.Dir`. -/
def extractPath (libs : GoLibs) (output : String) (extract : Option Extract)
    (pkg : String) : Except GoErr String :=
  match extract with
  | none => .ok (goTrimSpace output)
  | some ex =>
      if ex.type = "" ∨ ex.type = "raw" then .ok (goTrimSpace output)
      else
        let step : Except GoErr String :=
          if ex.type = "json" then extractJSON libs output ex.field
          else if ex.type = "line_prefix" then extractLinePrefix output ex.linePrefix
          else if ex.type = "regex" then extractRegex libs output ex.pattern
          else if ex.type = "json_array" then
            extractJSONArray libs output ex.arrayField ex.matchField ex.extractField pkg
          else if ex.type = "template" then extractTemplate ex.pattern pkg
          else .error (.msg ("unknown extract type: " ++ ex.type))
        match step with
        | .error e => .error e
        | .ok result =>
            if ex.stripFilename then .ok (libs.dir result) else .ok result

/-! ## GenericManager.Path (generic_manager.go) -/

/-- `Result` (manager.go:37-45), restricted to the data-carrying fields;
`Duration`, `Cwd` and `Context` are execution metadata set by the Runner
and never read on the `Path` code path. -/
structure Result where
  command : List String := []
  stdout : String := ""
  stderr : String := ""
  exitCode : Int := 0
deriving DecidableEq, Repr

/-- `PathResult` (manager.go:51-54); a Go `PathResult{Result: r}` leaves
`Path` at its zero value `""`. -/
structure PathResult where
  path : String := ""
  result : Result
deriving DecidableEq, Repr

/-- `GenericManager.Path` (generic_manager.go:182-214).  The Runner is a
parameter `run` from the built argument vector to its Go
`(*Result, error)` outcome; `ctx` and the manager directory are passed
through to it opaquely and omitted.  The Go function returns the pair
`(*PathResult, error)`, and on an extraction failure both are non-nil,
so the embedding returns both options. -/
def gmPath (libs : GoLibs) (t : Translator) (d : Definition)
    (run : List String → Except GoErr Result) (pkg : String) :
    Option PathResult × Option GoErr :=
  let input : CommandInput := { args := [("package", pkg)], flags := [], extra := [] }
  match BuildCommand t d.name "path" input with
  | .error e => (none, some e)
  | .ok cmd =>
      match run cmd with
      | .error e => (none, some e)
      | .ok result =>
          let extract := (List.lookup "path" d.commands).bind Command.extract
          match extractPath libs result.stdout extract pkg with
          | .error e => (some { path := "", result := result }, some e)
          | .ok path => (some { path := path, result := result }, none)

/-! ## Concrete definitions used by witnesses and counterexamples -/

/-- A `GoLibs` instance for inputs whose extraction path touches no
external library: JSON never parses, regexes never compile, `dir` is the
identity.  Every theorem below that involves `GoLibs` holds for all
instances; this one only feeds concrete evaluations. -/
def plainLibs : GoLibs where
  jsonParse := fun _ => none
  regexFind := fun _ _ => .error ()
  dir := fun s => s

/-- The npm `add` Command as the embedded `definitions/npm.yaml` declares
it (exercised by `TestNpmAdd`, `TestNpmAddVersion`, `TestNpmAddDev`):
`base [install]`, required validated package, version suffix `@`,
`dev → --save-dev`. -/
def npmAdd : Command :=
  .mk ["install"] []
    [("package", { position := 0, required := true, validate := "npm_package" }),
     ("version", { suffix := "@" })]
    [("dev", { values := [{ literal := "--save-dev" }] })]
    [] [] [] none

/-- The npm `install` Command (exercised by `TestNpmInstall`,
`TestNpmInstallFrozen`): `base [install]`, frozen override to `ci`, and
a `frozen` expansion rule to make the override-exclusion visible. -/
def npmInstall : Command :=
  .mk ["install"] [("frozen", ["ci"])] []
    [("frozen", { values := [{ literal := "--frozen-lockfile" }] })]
    [] [] [] none

/-- An npm-like Definition holding the two Commands above. -/
def npmDef : Definition :=
  { name := "npm", binary := "npm",
    commands := [("add", npmAdd), ("install", npmInstall)] }

/-- A translator with only the npm definition registered. -/
def npmTranslator : Translator := { definitions := [("npm", npmDef)], validators := [] }

/-- A Command with two optional positional args and no other rules:
the smallest shape on which the args-loop iteration order is visible. -/
def twoArgCmdAB : Command :=
  .mk ["run"] [] [("alpha", {}), ("beta", {})] [] [] [] [] none

/-- The same Command with the two `Args` entries in the other iteration
order: as finite maps the two are identical. -/
def twoArgCmdBA : Command :=
  .mk ["run"] [] [("beta", {}), ("alpha", {})] [] [] [] [] none

/-- A Definition holding `twoArgCmdAB` under operation `op`. -/
def twoArgDefAB : Definition :=
  { name := "m", binary := "bin", commands := [("op", twoArgCmdAB)] }

/-- A Definition holding `twoArgCmdBA` under operation `op`. -/
def twoArgDefBA : Definition :=
  { name := "m", binary := "bin", commands := [("op", twoArgCmdBA)] }

/-- A translator holding `twoArgCmdAB` under manager `m`, operation `op`. -/
def twoArgTranslatorAB : Translator :=
  { definitions := [("m", twoArgDefAB)], validators := [] }

/-- A translator holding `twoArgCmdBA` under manager `m`, operation `op`. -/
def twoArgTranslatorBA : Translator :=
  { definitions := [("m", twoArgDefBA)], validators := [] }

/-- The yarn `path` Command as `TestGenericManager_Path_Template`
(part_007:140-180) and the embedded yarn definition declare it: the
package arg is required and `extraction_only`, the extract rule a
template. -/
def yarnPathCmd : Command :=
  .mk ["why"] []
    [("package", { position := 0, required := true, extractionOnly := true })]
    [] [] [] []
    (some { type := "template", pattern := "node_modules/\x7bpackage\x7d" })

/-- A yarn-style Definition holding `yarnPathCmd`. -/
def yarnDef : Definition :=
  { name := "yarn", binary := "yarn", commands := [("path", yarnPathCmd)] }

/-- A translator with the yarn-style definition registered. -/
def yarnTranslator : Translator :=
  { definitions := [("yarn", yarnDef)], validators := [] }

/-- The `npm_package` validator of validate.go (pattern and maximum
length), registered under its name as `Translator.RegisterValidator`
would store it. -/
def npmPackageValidator : Validator :=
  { pattern := "^(@[a-z0-9-~][a-z0-9-._~]*/)?[a-z0-9-~][a-z0-9-._~]*$", maxLength := 214 }

/-- The npm translator with the `npm_package` validator registered, so
that the `validate: npm_package` rule of `npmAdd` resolves. -/
def npmTranslatorV : Translator :=
  { definitions := [("npm", npmDef)], validators := [("npm_package", npmPackageValidator)] }

/-- A Command with two required args, for exercising the missing-argument
error with more than one absent name. -/
def twoRequiredCmd : Command :=
  .mk ["run"] [] [("alpha", { required := true }), ("beta", { required := true })]
    [] [] [] [] none

/-- A Definition holding `twoRequiredCmd` under operation `op`. -/
def twoRequiredDef : Definition :=
  { name := "m", binary := "bin", commands := [("op", twoRequiredCmd)] }

/-- A translator holding `twoRequiredCmd` under manager `m`, operation `op`. -/
def twoRequiredTranslator : Translator :=
  { definitions := [("m", twoRequiredDef)], validators := [] }

/-- A gomod-style `add` Command with a `then` chain (`go get` followed by
`go mod tidy`), as `TestGomodAddChain` exercises it. -/
def gomodAdd : Command :=
  .mk ["get"] [] [("package", { position := 0, required := true })] [] [] []
    [ .mk ["mod", "tidy"] [] [] [] [] [] [] none ] none

/-- A gomod-style Definition holding `gomodAdd`. -/
def gomodDef : Definition :=
  { name := "gomod", binary := "go", commands := [("add", gomodAdd)] }

/-- A translator with the gomod definition registered. -/
def gomodTranslator : Translator :=
  { definitions := [("gomod", gomodDef)], validators := [] }

/-- A chain whose first Command always builds but whose single `then`
entry has a required arg, so the chain can fail where the first command
succeeds. -/
def fragileChainCmd : Command :=
  .mk ["get"] [] [] [] [] []
    [ .mk ["tidy"] [] [("x", { required := true })] [] [] [] [] none ] none

/-- A Definition holding `fragileChainCmd` under operation `op`. -/
def fragileChainDef : Definition :=
  { name := "m", binary := "bin", commands := [("op", fragileChainCmd)] }

/-- A translator holding `fragileChainCmd` under manager `m`, operation `op`. -/
def fragileChainTranslator : Translator :=
  { definitions := [("m", fragileChainDef)], validators := [] }

/-- A pip-style `path` Command whose extract rule is a line prefix, for
exercising extraction failure after a successful run. -/
def pipPathCmd : Command :=
  .mk ["show"] [] [("package", { position := 0, required := true })] [] [] [] []
    (some { type := "line_prefix", linePrefix := "Location: " })

/-- A pip-style Definition holding `pipPathCmd`. -/
def pipDef : Definition :=
  { name := "pip", binary := "pip", commands := [("path", pipPathCmd)] }

/-- A translator with the pip definition registered. -/
def pipTranslator : Translator := { definitions := [("pip", pipDef)], validators := [] }

/-- A Command declaring a suffixed version arg next to an ordinary
optional positional arg, for exercising the version pass when no
package value is supplied. -/
def versionNoPackageCmd : Command :=
  .mk ["c"] [] [("version", { suffix := "@" }), ("x", {})] [] [] [] [] none

/-- A Definition holding `versionNoPackageCmd` under operation `op`. -/
def versionNoPackageDef : Definition :=
  { name := "m", binary := "b", commands := [("op", versionNoPackageCmd)] }

/-- A translator holding `versionNoPackageCmd` under manager `m`,
operation `op`. -/
def versionNoPackageTranslator : Translator :=
  { definitions := [("m", versionNoPackageDef)], validators := [] }

example :
    BuildCommand npmTranslator "npm" "add"
      { args := [("package", "lodash")], flags := [("dev", .vbool true)], extra := [] } =
      .ok ["npm", "install", "lodash", "--save-dev"] := by decide

example :
    BuildCommand npmTranslator "npm" "add"
      { args := [("package", "lodash"), ("version", "4.17.21")], flags := [], extra := [] } =
      .ok ["npm", "install", "lodash@4.17.21"] := by decide

example :
    BuildCommand npmTranslator "npm" "install"
      { args := [], flags := [("frozen", .vbool true)], extra := [] } =
      .ok ["npm", "ci"] := by decide

example :
    BuildCommand npmTranslator "npm" "add" { args := [], flags := [], extra := [] } =
      .error (.missingArgument "package") := by decide

/-! ## Helper lemmas -/

lemma lookup_eraseKeyAll_ne {α : Type} (k x : String) (l : List (String × α)) (h : k ≠ x) :
    List.lookup k (eraseKeyAll x l) = List.lookup k l := by
  induction l with
  | nil => rfl
  | cons a rest ih =>
      by_cases ha : a.1 = x
      · have hka : (k == a.1) = false := by simp [ha, h]
        rw [show a = (a.1, a.2) from rfl, List.lookup_cons, hka]
        simpa [eraseKeyAll, ha] using ih
      · by_cases hk : k = a.1
        · have hka : (k == a.1) = true := by simp [hk]
          rw [show a = (a.1, a.2) from rfl, List.lookup_cons, hka]
          rw [eraseKeyAll, if_neg ha, show a = (a.1, a.2) from rfl, List.lookup_cons, hka]
        · have hka : (k == a.1) = false := by simp [hk]
          rw [show a = (a.1, a.2) from rfl, List.lookup_cons, hka]
          rw [eraseKeyAll, if_neg ha, show a = (a.1, a.2) from rfl, List.lookup_cons, hka, ih]

lemma lookup_eraseKeyAll_self {α : Type} (x : String) (l : List (String × α)) :
    List.lookup x (eraseKeyAll x l) = none := by
  induction l with
  | nil => rfl
  | cons a rest ih =>
      by_cases ha : a.1 = x
      · simpa [eraseKeyAll, ha] using ih
      · have hxa : (x == a.1) = false := by simp [Ne.symm ha]
        rw [eraseKeyAll, if_neg ha, show a = (a.1, a.2) from rfl, List.lookup_cons, hxa, ih]

lemma mem_of_lookup_eq_some {α : Type} {k : String} {v : α} :
    ∀ {l : List (String × α)}, List.lookup k l = some v → (k, v) ∈ l := by
  intro l
  induction l with
  | nil => intro h; simp [List.lookup] at h
  | cons a rest ih =>
      intro h
      rw [show a = (a.1, a.2) from rfl, List.lookup_cons] at h
      by_cases hk : k = a.1
      · have hka : (k == a.1) = true := by simp [hk]
        rw [hka] at h
        simp only [Option.some.injEq] at h
        subst h
        subst hk
        exact List.mem_cons_self _ _
      · have hka : (k == a.1) = false := by simp [hk]
        rw [hka] at h
        exact List.mem_cons_of_mem _ (ih h)

lemma replaceFirst_length (p : String) (f : String → String) (l : List String) :
    (replaceFirst p f l).length = l.length := by
  induction l with
  | nil => rfl
  | cons a rest ih =>
      by_cases h : a = p <;> simp [replaceFirst, h, ih]

lemma replaceFirst_of_not_mem (p : String) (f : String → String) {l : List String}
    (h : p ∉ l) : replaceFirst p f l = l := by
  induction l with
  | nil => rfl
  | cons a rest ih =>
      have ha : a ≠ p := fun hh => h (hh ▸ List.mem_cons_self a rest)
      have hrest : p ∉ rest := fun hh => h (List.mem_cons_of_mem a hh)
      simp [replaceFirst, ha, ih hrest]

lemma flagEntryTokens_eraseKey (F : String) (cmdFlags : List (String × FlagRule))
    (flags : List (String × GoVal)) (p : String × GoVal) :
    flagEntryTokens F (eraseKeyAll F cmdFlags) flags p = flagEntryTokens F cmdFlags flags p := by
  unfold flagEntryTokens
  by_cases h1 : p.2 = .vbool false ∨ p.2 = .vstr "" ∨ p.2 = .vnil
  · simp [h1]
  · by_cases h2 : p.1 = F
    · simp [h1, h2]
    · simp only [if_neg h1, if_neg h2]
      rw [lookup_eraseKeyAll_ne _ _ _ h2]

lemma flagsPass_eraseKey (F : String) (cmdFlags : List (String × FlagRule))
    (flags : List (String × GoVal)) :
    flagsPass F (eraseKeyAll F cmdFlags) flags = flagsPass F cmdFlags flags := by
  unfold flagsPass
  congr 1
  exact List.map_congr_left (fun p _ => flagEntryTokens_eraseKey F cmdFlags flags p)

/-! ## Claims -/

/-- C1.  The claim states that `BuildCommand` returns the identical token
vector for a fixed `(manager, operation, input)` triple with no
dependence on the iteration order of the `Args` map.  The code iterates
`cmd.Args` with `range` (part_001:110), so the positional tokens follow
the map's unspecified iteration order: the two translators below differ
only in the order of the same two `Args` entries (a permutation with
nodup keys, i.e. the same Go map) yet build different vectors.  This
refutes the claim as a property of the code; the spec itself records
the intended determinism, so the order-dependence is a bug in the code. -/
theorem buildCommand_depends_on_args_iteration_order :
    twoArgCmdAB.args.Perm twoArgCmdBA.args ∧
    (twoArgCmdAB.args.map Prod.fst).Nodup ∧
    twoArgCmdAB.base = twoArgCmdBA.base ∧
    BuildCommand twoArgTranslatorAB "m" "op"
      { args := [("alpha", "x"), ("beta", "y")], flags := [], extra := [] } =
      .ok ["bin", "run", "x", "y"] ∧
    BuildCommand twoArgTranslatorBA "m" "op"
      { args := [("alpha", "x"), ("beta", "y")], flags := [], extra := [] } =
      .ok ["bin", "run", "y", "x"] :=
  ⟨by rw [show twoArgCmdAB.args = [("alpha", ({} : Arg)), ("beta", ({} : Arg))] from rfl,
        show twoArgCmdBA.args = [("beta", ({} : Arg)), ("alpha", ({} : Arg))] from rfl]
      exact List.Perm.swap _ _ _,
   by decide, by decide, by decide, by decide⟩

/-- C2.  The claim states that a value supplied for an `extraction_only`
Arg never appears in the built command.  `buildSingleCommand`
(part_001:110-138) never reads `Arg.ExtractionOnly`, so the value is
rendered as an ordinary positional token: for the yarn-style `path`
Command (required, `extraction_only` package) the built vector contains
`lodash`, although schema.go documents the field as "arg is only used
for output extraction, not passed to command" and both
`TestGenericManager_Path_Template` and `TestYarnPath` expect
`["yarn", "why"]` / no package token. -/
theorem extractionOnly_value_rendered_into_command :
    (List.lookup "package" yarnPathCmd.args).map Arg.extractionOnly = some true ∧
    BuildCommand yarnTranslator "yarn" "path"
      { args := [("package", "lodash")], flags := [], extra := [] } =
      .ok ["yarn", "why", "lodash"] ∧
    "lodash" ∈ ["yarn", "why", "lodash"] := by
  refine ⟨by decide, by decide, by decide⟩

/-- C8 counterexample.  The claim quantifies over every non-nil Extract
rule whose `Type` is none of the recognized kinds `raw`, `json`,
`line_prefix`, `regex`, `json_array`, `template` and demands an
"unknown extract type" error.  The empty type `""` is none of those
kinds, yet `ExtractPath` (extractor.go:14) treats it exactly like `raw`
and silently returns the trimmed output. -/
theorem extractPath_empty_type_raw_passthrough :
    extractPath plainLibs "  /x/y  " (some { type := "" }) "pkg" = .ok "/x/y" ∧
    ("" : String) ∉ ["raw", "json", "line_prefix", "regex", "json_array", "template"] := by
  refine ⟨by decide, by decide⟩

/-- C8 (amended): for every output, package name and non-nil Extract
rule whose `Type` is non-empty and none of the recognized kinds,
`ExtractPath` returns the "unknown extract type" error and no value —
it never falls back to raw passthrough.  (The empty type is the
declared-absent case and is handled as `raw`.) -/
theorem extractPath_unknown_type_fails (libs : GoLibs) (output pkg : String) (ex : Extract)
    (hne : ex.type ≠ "")
    (hnr : ex.type ∉ ["raw", "json", "line_prefix", "regex", "json_array", "template"]) :
    extractPath libs output (some ex) pkg =
      .error (.msg ("unknown extract type: " ++ ex.type)) := by
  simp only [List.mem_cons, List.not_mem_nil, or_false, not_or] at hnr
  obtain ⟨h1, h2, h3, h4, h5, h6⟩ := hnr
  simp [extractPath, hne, h1, h2, h3, h4, h5, h6]

/-- C8 witness: the amended theorem at the concrete unknown type `xml`. -/
theorem extractPath_unknown_type_fails_witness :
    ("xml" : String) ≠ "" ∧
    ("xml" : String) ∉ ["raw", "json", "line_prefix", "regex", "json_array", "template"] ∧
    extractPath plainLibs "anything" (some { type := "xml" }) "p" =
      .error (.msg "unknown extract type: xml") := by
  refine ⟨by decide, by decide, ?_⟩
  have h := extractPath_unknown_type_fails plainLibs "anything" "p" { type := "xml" }
    (by decide) (by decide)
  exact h.trans (by decide)

/-- C3.  The claim states that a value violating the named validator's
pattern (or length limit) makes `BuildCommand` fail with an
`InvalidPackageName`-kind error.  `Translator.validate`
(part_001:207-221) checks only `MaxLength` and never reads
`Validator.Pattern`, so `"UPPER"` — which violates the registered
`npm_package` pattern (lower-case only) while respecting the length
limit — is embedded into the command without any error. -/
theorem validator_pattern_not_enforced :
    (List.lookup "npm_package" npmTranslatorV.validators).map Validator.pattern =
      some "^(@[a-z0-9-~][a-z0-9-._~]*/)?[a-z0-9-~][a-z0-9-._~]*$" ∧
    (List.lookup "package" npmAdd.args).map Arg.validate = some "npm_package" ∧
    BuildCommand npmTranslatorV "npm" "add"
      { args := [("package", "UPPER")], flags := [], extra := [] } =
      .ok ["npm", "install", "UPPER"] := by
  refine ⟨by decide, by decide, by decide⟩

/-- C5: for every Command, input and flag name F, when the
base-override scan selects F (F present and truthy, base replaced by
the override's tokens), the flag-expansion pass contributes nothing for
F: deleting F's expansion rule from `cmd.Flags` leaves the built
command unchanged, because the loop skips the entry whose name equals
the recorded override trigger (part_001:164-167). -/
theorem overrideTrigger_excluded_from_flag_expansion
    (validators : List (String × Validator)) (binary : String) (cmd : Command)
    (input : CommandInput) (F : String) (repl : List String)
    (h : pickOverride input.flags cmd.baseOverrides = some (F, repl)) :
    buildSingleCommand validators binary cmd input =
      buildSingleCommand validators binary
        (.mk cmd.base cmd.baseOverrides cmd.args (eraseKeyAll F cmd.flags)
          cmd.defaultFlags cmd.exitCodes cmd.thenCmds cmd.extract) input := by
  cases cmd with
  | mk b o a f df ec tc ex =>
      simp only [Command.baseOverrides] at h
      unfold buildSingleCommand
      simp only [Command.base, Command.baseOverrides, Command.args, Command.flags,
        Command.defaultFlags, h, Option.map_some, Option.getD_some]
      cases hra : renderArgs validators input.args a with
      | error e => simp [hra]
      | ok argToks => simp [hra, flagsPass_eraseKey]

/-- C5 witness: the npm `install` Command with the `frozen` override
selected; the flag pass is identical with the `frozen` expansion rule
removed, and the result reproduces the spec scenario `["npm", "ci"]`. -/
theorem overrideTrigger_excluded_witness :
    pickOverride [("frozen", .vbool true)] npmInstall.baseOverrides =
      some ("frozen", ["ci"]) ∧
    buildSingleCommand [] "npm" npmInstall ⟨[], [("frozen", .vbool true)], []⟩ =
      buildSingleCommand [] "npm"
        (.mk npmInstall.base npmInstall.baseOverrides npmInstall.args
          (eraseKeyAll "frozen" npmInstall.flags) npmInstall.defaultFlags
          npmInstall.exitCodes npmInstall.thenCmds npmInstall.extract)
        ⟨[], [("frozen", .vbool true)], []⟩ ∧
    buildSingleCommand [] "npm" npmInstall ⟨[], [("frozen", .vbool true)], []⟩ =
      .ok ["npm", "ci"] :=
  ⟨by decide,
   overrideTrigger_excluded_from_flag_expansion [] "npm" npmInstall
     ⟨[], [("frozen", .vbool true)], []⟩ "frozen" ["ci"] (by decide),
   by decide⟩

/-- C6: when the Command declares a "version" arg whose rule has a
non-empty suffix (and no flag/fixed-suffix rendering), and the input
supplies both a package and a version value, `BuildCommand` rewrites the
first token equal to the package value in place to
`token ++ suffix ++ version` (part_001:140-151); the rewrite preserves
the token count — no separate version token is appended. -/
theorem buildCommand_version_suffix_rewrite
    (t : Translator) (mgr op : String) (input : CommandInput) (d : Definition)
    (cmd : Command) (vd : Arg) (p ver : String) (argToks : List String)
    (hd : List.lookup mgr t.definitions = some d)
    (hc : List.lookup op d.commands = some cmd)
    (hvd : List.lookup "version" cmd.args = some vd)
    (hsfx : vd.suffix ≠ "")
    (hp : List.lookup "package" input.args = some p)
    (hv : List.lookup "version" input.args = some ver)
    (hargs : renderArgs t.validators input.args cmd.args = .ok argToks) :
    BuildCommand t mgr op input =
      .ok (replaceFirst p (fun a => a ++ vd.suffix ++ ver)
          (d.binary ::
            (((pickOverride input.flags cmd.baseOverrides).map (fun q => q.2)).getD cmd.base ++
              argToks)) ++
        cmd.defaultFlags ++
        flagsPass (((pickOverride input.flags cmd.baseOverrides).map (fun q => q.1)).getD "")
          cmd.flags input.flags ++
        input.extra) ∧
    (replaceFirst p (fun a => a ++ vd.suffix ++ ver)
        (d.binary ::
          (((pickOverride input.flags cmd.baseOverrides).map (fun q => q.2)).getD cmd.base ++
            argToks))).length =
      (d.binary ::
        (((pickOverride input.flags cmd.baseOverrides).map (fun q => q.2)).getD cmd.base ++
          argToks)).length := by
  constructor
  · simp only [BuildCommand, hd, hc, buildSingleCommand, hargs, versionRewrite,
      hvd, hsfx, hp, hv, Option.getD_some, ne_eq, not_false_iff, if_true]
  · exact replaceFirst_length _ _ _

/-- C6 witness: the npm scenario — `npm add` with package `lodash` and
version `4.17.21` builds `["npm", "install", "lodash@4.17.21"]` by the
in-place rewrite. -/
theorem buildCommand_version_suffix_rewrite_witness :
    BuildCommand npmTranslator "npm" "add"
      ⟨[("package", "lodash"), ("version", "4.17.21")], [], []⟩ =
      .ok ["npm", "install", "lodash@4.17.21"] := by
  have h := buildCommand_version_suffix_rewrite npmTranslator "npm" "add"
    ⟨[("package", "lodash"), ("version", "4.17.21")], [], []⟩ npmDef npmAdd
    { suffix := "@" } "lodash" "4.17.21" ["lodash"]
    (by rfl) (by rfl) (by decide) (by decide) (by decide) (by decide) (by decide)
  exact h.1.trans (by decide)


/-- If some required arg name is absent from the input, the args loop
(with no registered validators) fails with `ErrMissingArgument`, and the
name it reports is itself a required arg name absent from the input
(the first such in iteration order). -/
lemma renderArgs_error_of_missing_required (inputArgs : List (String × String)) :
    ∀ (args : List (String × Arg)) (name : String) (ad : Arg),
      (name, ad) ∈ args → ad.required = true → List.lookup name inputArgs = none →
      ∃ m ad2, renderArgs [] inputArgs args = .error (.missingArgument m) ∧
        (m, ad2) ∈ args ∧ ad2.required = true ∧ List.lookup m inputArgs = none := by
  intro args
  induction args with
  | nil => intro name ad h; simp at h
  | cons a rest ih =>
      intro name ad hmem hreq hmiss
      obtain ⟨n0, a0⟩ := a
      cases hl : List.lookup n0 inputArgs with
      | some v =>
          have hne : (name, ad) ∈ rest := by
            rcases List.mem_cons.mp hmem with heq | hr
            · exfalso
              have : name = n0 := congrArg Prod.fst heq
              rw [this, hl] at hmiss
              exact Option.noConfusion hmiss
            · exact hr
          obtain ⟨m, ad2, hrem, hmem2, hreq2, hmiss2⟩ := ih name ad hne hreq hmiss
          refine ⟨m, ad2, ?_, List.mem_cons_of_mem _ hmem2, hreq2, hmiss2⟩
          have hvv : (if a0.validate ≠ "" then tvalidate [] a0.validate v else .ok ()) =
              Except.ok () := by
            by_cases hc : a0.validate ≠ "" <;> simp [hc, tvalidate, List.lookup]
          simp [renderArgs, hl, hvv, hrem]
      | none =>
          by_cases hr0 : a0.required = true
          · exact ⟨n0, a0, by simp [renderArgs, hl, hr0], List.mem_cons_self _ _, hr0, hl⟩
          · have hne : (name, ad) ∈ rest := by
              rcases List.mem_cons.mp hmem with heq | hr
              · exfalso
                have : ad = a0 := congrArg Prod.snd heq
                rw [this] at hreq
                exact hr0 hreq
              · exact hr
            obtain ⟨m, ad2, hrem, hmem2, hreq2, hmiss2⟩ := ih name ad hne hreq hmiss
            exact ⟨m, ad2, by simp [renderArgs, hl, hr0, hrem],
              List.mem_cons_of_mem _ hmem2, hreq2, hmiss2⟩

/-- C4 counterexample.  The claim says the `MissingArgument` error
identifies *that* (arbitrary) absent required name.  With two required
args both absent, the code reports the first one reached by the
iteration (part_001:110-115): the error names `alpha` even though
`beta` is also a required name absent from the input, so the claim
instantiated at `beta` fails. -/
theorem missingArgument_names_first_missing :
    BuildCommand twoRequiredTranslator "m" "op" ⟨[], [], []⟩ =
      .error (.missingArgument "alpha") ∧
    (List.lookup "beta" twoRequiredCmd.args).map Arg.required = some true ∧
    ("beta" : String) ≠ "alpha" :=
  ⟨by decide, by decide, by decide⟩

/-- C4 (amended): for a translator with no registered validators (a
registered validator failing on an earlier argument would preempt with
`InvalidPackageName`), calling `BuildCommand` while some required arg
name is absent from `input.Args` yields `ErrMissingArgument` naming a
required argument absent from the input — the first such in iteration
order — and never a (even partial) token vector. -/
theorem buildCommand_missing_required
    (t : Translator) (mgr op : String) (input : CommandInput) (d : Definition)
    (cmd : Command) (name : String) (ad : Arg)
    (hval : t.validators = [])
    (hd : List.lookup mgr t.definitions = some d)
    (hc : List.lookup op d.commands = some cmd)
    (hna : List.lookup name cmd.args = some ad)
    (hreq : ad.required = true)
    (hmiss : List.lookup name input.args = none) :
    ∃ m ad2, BuildCommand t mgr op input = .error (.missingArgument m) ∧
      (m, ad2) ∈ cmd.args ∧ ad2.required = true ∧ List.lookup m input.args = none := by
  obtain ⟨m, ad2, hrem, hmem2, hreq2, hmiss2⟩ :=
    renderArgs_error_of_missing_required input.args cmd.args name ad
      (mem_of_lookup_eq_some hna) hreq hmiss
  refine ⟨m, ad2, ?_, hmem2, hreq2, hmiss2⟩
  simp only [BuildCommand, hd, hc, buildSingleCommand, hval, hrem]

/-- C4 witness: the amended theorem at `npm add` with an empty input —
the required `package` arg is missing. -/
theorem buildCommand_missing_required_witness :
    ∃ m ad2, BuildCommand npmTranslator "npm" "add" ⟨[], [], []⟩ =
      .error (.missingArgument m) ∧
      (m, ad2) ∈ npmAdd.args ∧ ad2.required = true ∧
      List.lookup m (CommandInput.args ⟨[], [], []⟩) = none :=
  buildCommand_missing_required npmTranslator "npm" "add" ⟨[], [], []⟩ npmDef npmAdd
    "package" { position := 0, required := true, validate := "npm_package" }
    (by rfl) (by rfl) (by rfl) (by rfl) (by rfl) (by rfl)

/-- An `.ok` result of the `Then` loop has one entry per chained
Command. -/
lemma buildThenCmds_length (validators : List (String × Validator)) (binary : String)
    (input : CommandInput) :
    ∀ (cmds : List Command) (out : List (List String)),
      buildThenCmds validators binary input cmds = .ok out → out.length = cmds.length := by
  intro cmds
  induction cmds with
  | nil => intro out h; simp [buildThenCmds] at h; simp [← h]
  | cons next rest ih =>
      intro out h
      simp only [buildThenCmds] at h
      cases h1 : buildSingleCommand validators binary next input with
      | error e => rw [h1] at h; exact Except.noConfusion h
      | ok nextCmd =>
          rw [h1] at h
          cases h2 : buildThenCmds validators binary input rest with
          | error e => rw [h2] at h; exact Except.noConfusion h
          | ok out2 =>
              rw [h2] at h
              have : nextCmd :: out2 = out := by
                simpa using h
              rw [← this]
              simp [ih out2 h2]

/-- C7 counterexample.  The claim says `BuildCommands` succeeds whenever
`BuildCommand` does.  A `then` entry is built by the same steps and can
fail on its own (part_001:77-82): here the first Command builds, but the
chained Command's required arg `x` is absent, so `BuildCommands`
returns an error and no list at all. -/
theorem buildCommands_fails_where_buildCommand_succeeds :
    BuildCommand fragileChainTranslator "m" "op" ⟨[], [], []⟩ = .ok ["bin", "get"] ∧
    BuildCommands fragileChainTranslator "m" "op" ⟨[], [], []⟩ =
      .error (.missingArgument "x") :=
  ⟨by decide, by decide⟩

/-- C7 (amended): when `BuildCommand` succeeds *and* every `then` entry
also builds successfully from the same input, `BuildCommands` succeeds
and returns `BuildCommand`'s vector as element 0 followed by one
independently built vector per `then` entry — `1 + |then|` vectors in
all. -/
theorem buildCommands_chain
    (t : Translator) (mgr op : String) (input : CommandInput) (d : Definition)
    (cmd : Command) (first : List String) (rest : List (List String))
    (hd : List.lookup mgr t.definitions = some d)
    (hc : List.lookup op d.commands = some cmd)
    (hfirst : buildSingleCommand t.validators d.binary cmd input = .ok first)
    (hrest : buildThenCmds t.validators d.binary input cmd.thenCmds = .ok rest) :
    BuildCommands t mgr op input = .ok (first :: rest) ∧
    BuildCommand t mgr op input = .ok first ∧
    (first :: rest).length = 1 + cmd.thenCmds.length := by
  refine ⟨?_, ?_, ?_⟩
  · simp [BuildCommands, hd, hc, buildCommandChain, hfirst, hrest]
  · simp [BuildCommand, hd, hc, hfirst]
  · simp [buildThenCmds_length _ _ _ _ _ hrest]
    omega

/-- C7 witness: the gomod chain scenario — `BuildCommands` on `gomod add`
returns `go get …` then `go mod tidy`. -/
theorem buildCommands_chain_witness :
    BuildCommands gomodTranslator "gomod" "add"
      ⟨[("package", "github.com/pkg/errors")], [], []⟩ =
      .ok [["go", "get", "github.com/pkg/errors"], ["go", "mod", "tidy"]] ∧
    BuildCommand gomodTranslator "gomod" "add"
      ⟨[("package", "github.com/pkg/errors")], [], []⟩ =
      .ok ["go", "get", "github.com/pkg/errors"] := by
  have h := buildCommands_chain gomodTranslator "gomod" "add"
    ⟨[("package", "github.com/pkg/errors")], [], []⟩ gomodDef gomodAdd
    ["go", "get", "github.com/pkg/errors"] [["go", "mod", "tidy"]]
    (by rfl) (by rfl) (by decide) (by decide)
  exact ⟨h.1, h.2.1⟩

/-- C9: whenever the Runner's `Run` call for the `path` operation
succeeds with result `r` and `ExtractPath` then fails on `r.Stdout`
under the path Command's extract rule, `GenericManager.Path` returns the
extraction error together with a `PathResult` whose `Result` field is
`r` (generic_manager.go:205-208): the raw execution result survives the
parse failure. -/
theorem gmPath_extraction_error_returns_result
    (libs : GoLibs) (t : Translator) (d : Definition)
    (run : List String → Except GoErr Result) (pkg : String)
    (cmd : List String) (r : Result) (e : GoErr)
    (hbuild : BuildCommand t d.name "path" ⟨[("package", pkg)], [], []⟩ = .ok cmd)
    (hrun : run cmd = .ok r)
    (hext : extractPath libs r.stdout
      ((List.lookup "path" d.commands).bind Command.extract) pkg = .error e) :
    gmPath libs t d run pkg = (some ⟨"", r⟩, some e) := by
  simp [gmPath, hbuild, hrun, hext]

/-- The Runner outcome used by the C9 witness: a successful execution
whose stdout has no `Location: ` line. -/
def pipRunResult : Result :=
  { command := ["pip", "show", "requests"], stdout := "no location line here",
    stderr := "", exitCode := 0 }

/-- C9 witness: the pip-style `path` flow — the run succeeds, the
line-prefix extraction fails, and `Path` returns both the error and the
raw result. -/
theorem gmPath_extraction_error_witness :
    gmPath plainLibs pipTranslator pipDef (fun _ => .ok pipRunResult) "requests" =
      (some ⟨"", pipRunResult⟩,
        some (.msg "no line found with prefix \"Location: \"")) :=
  gmPath_extraction_error_returns_result plainLibs pipTranslator pipDef
    (fun _ => .ok pipRunResult) "requests" ["pip", "show", "requests"] pipRunResult
    (.msg "no line found with prefix \"Location: \"")
    (by decide) (by rfl) (by decide)

/-- When the input supplies a version value, every `Args` rule named
"version" is suffix-deferred (empty flag and fixed suffix, non-empty
suffix, no validator), and the args loop succeeds on the input with the
version entry deleted, then the loop returns the same tokens on the full
input: the version entry only hits the deferred `continue` branch. -/
lemma renderArgs_ignores_version
    (validators : List (String × Validator)) (inputArgs : List (String × String))
    (ver : String) (hver : List.lookup "version" inputArgs = some ver) :
    ∀ (args : List (String × Arg)) (toks : List String),
      (∀ p ∈ args, p.1 = "version" →
        p.2.flag = "" ∧ p.2.fixedSuffix = "" ∧ p.2.suffix ≠ "" ∧ p.2.validate = "") →
      renderArgs validators (eraseKeyAll "version" inputArgs) args = .ok toks →
      renderArgs validators inputArgs args = .ok toks := by
  intro args
  induction args with
  | nil => intro toks _ h; exact h
  | cons a rest ih =>
      intro toks hrules h
      obtain ⟨n, ad⟩ := a
      have hrules2 : ∀ p ∈ rest, p.1 = "version" →
          p.2.flag = "" ∧ p.2.fixedSuffix = "" ∧ p.2.suffix ≠ "" ∧ p.2.validate = "" :=
        fun p hp => hrules p (List.mem_cons_of_mem _ hp)
      by_cases hn : n = "version"
      · subst hn
        obtain ⟨hflag0, hfs0, hsfx0, hvd0⟩ :=
          hrules ("version", ad) (List.mem_cons_self _ _) rfl
        have hflag : ad.flag = "" := hflag0
        have hfs : ad.fixedSuffix = "" := hfs0
        have hsfx : ad.suffix ≠ "" := hsfx0
        have hvd : ad.validate = "" := hvd0
        simp only [renderArgs, lookup_eraseKeyAll_self] at h
        cases hreq : ad.required with
        | true => rw [hreq] at h; simp at h
        | false =>
            rw [hreq] at h
            simp only [Bool.false_eq_true, if_false] at h
            have h2 := ih toks hrules2 h
            simp only [renderArgs, hver, hvd, h2]
            simp [argTokens, hflag, hfs, hsfx]
      · simp only [renderArgs, lookup_eraseKeyAll_ne _ _ _ hn] at h
        cases hl : List.lookup n inputArgs with
        | none =>
            rw [hl] at h
            simp only [renderArgs, hl]
            cases hreq : ad.required with
            | true => rw [hreq] at h; simp at h
            | false =>
                rw [hreq] at h
                simp only [Bool.false_eq_true, if_false] at h ⊢
                exact ih toks hrules2 h
        | some v =>
            rw [hl] at h
            simp only at h
            simp only [renderArgs, hl]
            cases hvv : (if ad.validate ≠ "" then tvalidate validators ad.validate v
                else Except.ok ()) with
            | error e => rw [hvv] at h; simp at h
            | ok u =>
                rw [hvv] at h
                simp only at h ⊢
                cases hrr : renderArgs validators (eraseKeyAll "version" inputArgs) rest with
                | error e => rw [hrr] at h; simp at h
                | ok toks2 =>
                    rw [hrr] at h
                    simp only [Except.ok.injEq] at h
                    rw [ih toks2 hrules2 hrr]
                    simp [h]

/-- The version pass, the args loop and the flag pass under the
version-erased input coincide with the full input: buildSingleCommand
ignores a version value entirely when no package value is supplied, no
already-emitted token is empty, and the version rule is suffix-deferred. -/
lemma buildSingle_version_without_package
    (validators : List (String × Validator)) (binary : String) (cmd : Command)
    (input : CommandInput) (ver : String) (out : List String)
    (hver : List.lookup "version" input.args = some ver)
    (hpkg : List.lookup "package" input.args = none)
    (hrules : ∀ p ∈ cmd.args, p.1 = "version" →
      p.2.flag = "" ∧ p.2.fixedSuffix = "" ∧ p.2.suffix ≠ "" ∧ p.2.validate = "")
    (hok : buildSingleCommand validators binary cmd
      ⟨eraseKeyAll "version" input.args, input.flags, input.extra⟩ = .ok out)
    (hout : ("" : String) ∉ out) :
    buildSingleCommand validators binary cmd input = .ok out := by
  obtain ⟨iargs, iflags, iextra⟩ := input
  simp only at hver hpkg
  unfold buildSingleCommand at hok ⊢
  cases hra : renderArgs validators (eraseKeyAll "version" iargs) cmd.args with
  | error e => rw [hra] at hok; simp at hok
  | ok argToks =>
      simp only [hra] at hok
      simp only [renderArgs_ignores_version validators iargs ver hver cmd.args argToks
        hrules hra]
      simp only [Except.ok.injEq] at hok
      have hnorew : versionRewrite cmd.args (eraseKeyAll "version" iargs)
          ((List.lookup "package" (eraseKeyAll "version" iargs)).getD "")
          (binary :: (((pickOverride iflags cmd.baseOverrides).map (fun q => q.2)).getD
            cmd.base ++ argToks)) =
          binary :: (((pickOverride iflags cmd.baseOverrides).map (fun q => q.2)).getD
            cmd.base ++ argToks) := by
        unfold versionRewrite
        cases List.lookup "version" cmd.args with
        | none => rfl
        | some vd =>
            rw [lookup_eraseKeyAll_self]
            by_cases hs : vd.suffix = "" <;> simp [hs]
      rw [hnorew] at hok
      have hpre : ("" : String) ∉
          binary :: (((pickOverride iflags cmd.baseOverrides).map (fun q => q.2)).getD
            cmd.base ++ argToks) := by
        intro hmem
        apply hout
        rw [← hok]
        exact List.mem_append_left _ (List.mem_append_left _ (List.mem_append_left _ hmem))
      have hnorew2 : versionRewrite cmd.args iargs
          ((List.lookup "package" iargs).getD "")
          (binary :: (((pickOverride iflags cmd.baseOverrides).map (fun q => q.2)).getD
            cmd.base ++ argToks)) =
          binary :: (((pickOverride iflags cmd.baseOverrides).map (fun q => q.2)).getD
            cmd.base ++ argToks) := by
        unfold versionRewrite
        cases hvc : List.lookup "version" cmd.args with
        | none => rfl
        | some vd =>
            rw [hver, hpkg]
            by_cases hs : vd.suffix = ""
            · simp [hs]
            · simp only [ne_eq, hs, not_false_iff, if_true, Option.getD_none]
              exact replaceFirst_of_not_mem _ _ hpre
      rw [hnorew2, hok]

/-- C10 counterexample.  The claim says the supplied version value
occurs in *no* token of the returned vector.  The version input is
indeed never rendered, but nothing stops another argument from
supplying the same string: here the optional arg `x` has value `1`,
equal to the version value, and the built vector contains the token
`1` while satisfying every hypothesis of the claim (binary and all
emitted tokens non-empty, version supplied, package absent). -/
theorem version_value_can_surface_via_other_arg :
    (List.lookup "version" versionNoPackageCmd.args).map Arg.suffix = some "@" ∧
    (List.lookup "version" versionNoPackageCmd.args).map Arg.flag = some "" ∧
    (List.lookup "version" versionNoPackageCmd.args).map Arg.fixedSuffix = some "" ∧
    BuildCommand versionNoPackageTranslator "m" "op"
      ⟨[("version", "1"), ("x", "1")], [], []⟩ = .ok ["b", "c", "1"] ∧
    (∀ tok ∈ ["b", "c", "1"], tok ≠ "") ∧
    ("1" : String) ∈ ["b", "c", "1"] :=
  ⟨by decide, by decide, by decide, by decide, by decide, by decide⟩

/-- C10 (amended): when the Command's "version" rules are
suffix-deferred (empty flag and fixed suffix, non-empty suffix, no
validator), the input supplies a version but no package, and the build
with the version entry deleted succeeds with only non-empty tokens,
then `BuildCommand` on the full input returns exactly that result: the
version input is silently dropped — rejected by nothing and rendered
into no token (though a token equal to the version string may still
arise from another input value). -/
theorem buildCommand_version_without_package
    (t : Translator) (mgr op : String) (input : CommandInput) (d : Definition)
    (cmd : Command) (ver : String) (out : List String)
    (hd : List.lookup mgr t.definitions = some d)
    (hc : List.lookup op d.commands = some cmd)
    (hver : List.lookup "version" input.args = some ver)
    (hpkg : List.lookup "package" input.args = none)
    (hrules : ∀ p ∈ cmd.args, p.1 = "version" →
      p.2.flag = "" ∧ p.2.fixedSuffix = "" ∧ p.2.suffix ≠ "" ∧ p.2.validate = "")
    (hok : BuildCommand t mgr op
      ⟨eraseKeyAll "version" input.args, input.flags, input.extra⟩ = .ok out)
    (hout : ("" : String) ∉ out) :
    BuildCommand t mgr op input = .ok out := by
  simp only [BuildCommand, hd, hc] at hok ⊢
  exact buildSingle_version_without_package t.validators d.binary cmd input ver out
    hver hpkg hrules hok hout

/-- C10 witness: the amended theorem at a concrete input supplying a
version and no package — the result is that of the version-less input,
with the version silently dropped. -/
theorem buildCommand_version_without_package_witness :
    BuildCommand versionNoPackageTranslator "m" "op"
      ⟨[("version", "9"), ("x", "hello")], [], []⟩ = .ok ["b", "c", "hello"] := by
  have h := buildCommand_version_without_package versionNoPackageTranslator "m" "op"
    ⟨[("version", "9"), ("x", "hello")], [], []⟩ versionNoPackageDef versionNoPackageCmd
    "9" ["b", "c", "hello"]
    (by rfl) (by rfl) (by rfl) (by rfl)
    (by intro p hp h1
        fin_cases hp
        · exact ⟨rfl, rfl, by decide, rfl⟩
        · exact absurd h1 (by decide))
    (by decide) (by decide)
  exact h

end Managers
